import Mathlib

/-!
# Verification of the bug-tracker record store (`src/main.py`)

Shallow embedding of the data layer of the Tkinter bug tracker:
the `Bug` dataclass, the `BugTracker` store (CRUD, id assignment,
JSON persistence) and the Markdown export.  The GUI layer is out of
scope, except where a claim contrasts store behaviour with GUI-level
validation.

Conventions of the embedding:
* Python mutation is modelled by explicit state passing: each mutating
  operation takes a `Tracker` and returns the result value, the new
  `Tracker`, and a `Bool` recording whether `self.save()` was invoked.
* `datetime.now().isoformat(timespec="seconds")` is modelled by an
  explicit `now : String` argument.
* The persisted file is modelled at the JSON-value level: `json.dump` /
  `json.load` of the Python standard library are trusted to be inverse,
  so `save` produces a `Json` value and `load` consumes a `FileState`
  (absent file, undecodable text, or a decoded `Json` value).
* A `TypeError` escaping `BugTracker.load` (the `except` clause only
  catches `json.JSONDecodeError` and `OSError`) is modelled by the
  `LoadResult.fatal` outcome.
-/

namespace BugStore

/-- JSON values, as decoded by `json.load`.  Numbers are integers
(the store only ever writes the integer `id`); nested structure beyond
what the store reads back is not needed. -/
inductive Json where
  | num (n : Int)
  | str (s : String)
  | arr (items : List Json)
  | obj (fields : List (String × Json))

/-- Python `str.strip()`: drop whitespace characters from both ends.
(Defined at the character level so that it computes by kernel
reduction; `String.trim` of the Lean library is definitionally
opaque here.) -/
def pyStrip (s : String) : String :=
  ⟨((s.data.dropWhile Char.isWhitespace).reverse.dropWhile Char.isWhitespace).reverse⟩

/-- The `Bug` dataclass of `src/main.py`: id, description, priority,
status and the two second-precision ISO timestamps, kept as strings
exactly as in the source. -/
structure Bug where
  id : Int
  description : String
  priority : String
  status : String
  created_at : String
  updated_at : String
deriving DecidableEq, Repr

/-- Serialization `Bug.to_dict`: `asdict(self)` — the six fields as a key/value map,
in dataclass field order. -/
def Bug.to_dict (b : Bug) : List (String × Json) :=
  [("id", .num b.id), ("description", .str b.description),
   ("priority", .str b.priority), ("status", .str b.status),
   ("created_at", .str b.created_at), ("updated_at", .str b.updated_at)]

/-- Deserialization `Bug.from_dict` (`Bug(**data)`), read back into the
typed record: succeeds when the map carries exactly the six dataclass
fields, with values of the documented field types (integer `id`,
strings elsewhere).  Python's `Bug(**data)` itself checks only the
keyword set — it raises `TypeError` on a missing or unexpected keyword
and accepts mistyped values silently; that keyword check is modelled
separately by `itemKeysOk`, and an object whose keywords are right but
whose values fall outside the documented types constructs in Python a
record this typed embedding does not represent (see
`LoadResult.untyped`) — it is never treated as an error. -/
def Bug.from_dict (data : List (String × Json)) : Option Bug :=
  match data.lookup "id", data.lookup "description", data.lookup "priority",
        data.lookup "status", data.lookup "created_at", data.lookup "updated_at" with
  | some (.num i), some (.str d), some (.str p), some (.str st),
    some (.str c), some (.str u) =>
      if data.length = 6 then some ⟨i, d, p, st, c, u⟩ else none
  | _, _, _, _, _, _ => none

/-- The mutable state of a `BugTracker`: the in-memory list `self.bugs`
and the counter `self._next_id`. -/
structure Tracker where
  bugs : List Bug
  next_id : Int
deriving DecidableEq, Repr

/-- The state a fresh `BugTracker.__init__` sets up before calling
`load`: empty list, counter 1. -/
def initState : Tracker := ⟨[], 1⟩

/-- Model of `BugTracker.save`: the JSON value written to the data file,
`[b.to_dict() for b in self.bugs]`. -/
def dump (bugs : List Bug) : Json :=
  .arr (bugs.map (fun b => .obj b.to_dict))

/-- What `load` finds at `self.data_file`: no file, a file whose text
cannot be read/decoded (`OSError` / `json.JSONDecodeError`, both
caught), or a file decoding to a JSON value. -/
inductive FileState where
  | absent
  | invalid
  | validJson (j : Json)

/-- Outcome of `BugTracker.load`: a tracker state together with a flag
recording whether the data-corruption warning dialog was shown; or an
uncaught exception (`TypeError` from `Bug(**data)` on a wrong keyword
set, or from iterating a non-iterable), which aborts `__init__`; or
`untyped` — every record object constructs (keywords are right) but
some field value falls outside the dataclass's documented field types
(e.g. a numeric description).  Python accepts such values silently and
returns normally carrying them; the resulting state lies outside this
typed embedding, so `untyped` marks the region about which the model
asserts nothing, rather than an error. -/
inductive LoadResult where
  | ok (t : Tracker) (warned : Bool)
  | fatal (msg : String)
  | untyped
deriving DecidableEq, Repr

/-- One item of the decoded array through `Bug.from_dict`: only a JSON
object can be splatted as `Bug(**item)`. -/
def itemToBug : Json → Option Bug
  | .obj fields => Bug.from_dict fields
  | _ => none

/-- The keyword set `Bug(**data)` demands: the dataclass's six field
names. -/
def requiredKeys : List String :=
  ["id", "description", "priority", "status", "created_at", "updated_at"]

/-- Whether `Bug(**item)` constructs without raising `TypeError`: the
item is a JSON object whose keys are exactly the six dataclass field
names (in any order).  Values are not inspected — Python dataclasses
perform no runtime type checking. -/
def itemKeysOk : Json → Bool
  | .obj fields => (fields.map Prod.fst).isPerm requiredKeys
  | _ => false

/-- Rebuild of the list, `[Bug.from_dict(item) for item in raw]`, for a decoded array:
fails (uncaught `TypeError`) as soon as one item is not a well-formed
record object. -/
def loadItems : List Json → Option (List Bug)
  | [] => some []
  | j :: rest => do
      let b ← itemToBug j
      let bs ← loadItems rest
      pure (b :: bs)

/-- Python `max(b.id for b in self.bugs)` — only used on a non-empty list;
on `[]` we return 0 (the Python expression would raise, but `load`
guards with `if self.bugs:`). -/
def maxId : List Bug → Int
  | [] => 0
  | b :: rest => rest.foldl (fun acc x => max acc x.id) b.id

/-- Model of `BugTracker.load` as run from `__init__` (so `self.bugs = []`,
`self._next_id = 1` on entry):
* no file — return, state untouched;
* unreadable/undecodable file — caught, warning dialog, state reset;
* decoded array — `Bug(**item)` raises an uncaught `TypeError` as soon
  as some item is not an object with exactly the required keywords
  (`itemKeysOk`); when every item constructs, the list is read back
  into the typed records and `_next_id = max id + 1` is inferred for a
  non-empty list — unless some constructed record carries a field
  value outside the documented types, in which case Python returns
  normally with a state this embedding does not represent (`untyped`);
* decoded non-array — iterating it either yields nothing (empty string
  or empty object: state stays empty) or yields non-record elements
  (uncaught `TypeError`). -/
def load : FileState → LoadResult
  | .absent => .ok initState false
  | .invalid => .ok initState true
  | .validJson j =>
    match j with
    | .arr items =>
        if items.all itemKeysOk then
          match loadItems items with
          | some bugs =>
              if bugs.isEmpty then .ok ⟨bugs, 1⟩ false
              else .ok ⟨bugs, maxId bugs + 1⟩ false
          | none => .untyped
        else .fatal "TypeError: Bug.from_dict"
    | .str s => if s = "" then .ok initState false else .fatal "TypeError: Bug.from_dict"
    | .obj [] => .ok initState false
    | .obj (_ :: _) => .fatal "TypeError: Bug.from_dict"
    | .num _ => .fatal "TypeError: not iterable"

/-- Model of `BugTracker.add_bug`: strips the description, builds the record
with `id = self._next_id` and both timestamps `now`, appends it,
increments the counter, saves.  Returns the new record, the new state,
and the saved flag (always `true`: `add_bug` saves unconditionally). -/
def add_bug (t : Tracker) (description priority status now : String) :
    Bug × Tracker × Bool :=
  let bug : Bug := ⟨t.next_id, pyStrip description, priority, status, now, now⟩
  (bug, ⟨t.bugs ++ [bug], t.next_id + 1⟩, true)

/-- Model of `BugTracker.get_bug`: first record with the given id, else `None`. -/
def get_bug (t : Tracker) (bug_id : Int) : Option Bug :=
  t.bugs.find? (fun b => b.id == bug_id)

/-- In-place mutation of the record `get_bug` found: replace the first
list element whose id matches.  (Python mutates the aliased object;
the first match is the one `get_bug` returned.) -/
def setFirst (l : List Bug) (bug_id : Int) (nb : Bug) : List Bug :=
  match l with
  | [] => []
  | b :: rest => if b.id == bug_id then nb :: rest else b :: setFirst rest bug_id nb

/-- The first `if` of `update_bug`: apply the description only if
supplied, non-empty after `strip()`, and different from the stored
value.  Returns the record and the `changed` flag so far. -/
def applyDescription (bug : Bug) (description : Option String) : Bug × Bool :=
  match description with
  | some d =>
      if pyStrip d ≠ "" ∧ pyStrip d ≠ bug.description
      then ({ bug with description := pyStrip d }, true)
      else (bug, false)
  | none => (bug, false)

/-- The second `if` of `update_bug`: apply the priority only if
supplied and different. -/
def applyPriority (st : Bug × Bool) (priority : Option String) : Bug × Bool :=
  match priority with
  | some p => if p ≠ st.1.priority then ({ st.1 with priority := p }, true) else st
  | none => st

/-- The third `if` of `update_bug`: apply the status only if supplied
and different. -/
def applyStatus (st : Bug × Bool) (status : Option String) : Bug × Bool :=
  match status with
  | some s => if s ≠ st.1.status then ({ st.1 with status := s }, true) else st
  | none => st

/-- Model of `BugTracker.update_bug`: `None` means the keyword was omitted.
Field application order and conditions follow the source:
* description — applied only if supplied, non-empty after `strip()`,
  and different from the stored value;
* priority, status — applied only if supplied and different.
If any field changed, `updated_at` is stamped and `save()` runs.
Returns (changed, new state, saved flag). -/
def update_bug (t : Tracker) (bug_id : Int)
    (description priority status : Option String) (now : String) :
    Bool × Tracker × Bool :=
  match get_bug t bug_id with
  | none => (false, t, false)
  | some bug0 =>
    if (applyStatus (applyPriority (applyDescription bug0 description) priority) status).2
    then (true,
          ⟨setFirst t.bugs bug_id
            { (applyStatus (applyPriority (applyDescription bug0 description) priority)
                status).1 with updated_at := now }, t.next_id⟩, true)
    else (false, t, false)

theorem applyDescription_id (b : Bug) (d : Option String) :
    (applyDescription b d).1.id = b.id := by
  unfold applyDescription
  cases d with
  | none => rfl
  | some d => dsimp only; split <;> rfl

theorem applyPriority_id (st : Bug × Bool) (p : Option String) :
    (applyPriority st p).1.id = st.1.id := by
  unfold applyPriority
  cases p with
  | none => rfl
  | some p => dsimp only; split <;> rfl

theorem applyStatus_id (st : Bug × Bool) (s : Option String) :
    (applyStatus st s).1.id = st.1.id := by
  unfold applyStatus
  cases s with
  | none => rfl
  | some s => dsimp only; split <;> rfl

/-- Model of `BugTracker.delete_bug`: rebuild the list without the id; save and
report `true` exactly when the length shrank. -/
def delete_bug (t : Tracker) (bug_id : Int) : Bool × Tracker × Bool :=
  if (t.bugs.filter (fun b => b.id ≠ bug_id)).length ≠ t.bugs.length
  then (true, ⟨t.bugs.filter (fun b => b.id ≠ bug_id), t.next_id⟩, true)
  else (false, ⟨t.bugs.filter (fun b => b.id ≠ bug_id), t.next_id⟩, false)

/-- Model of `BugTracker.list_bugs`: `list(self.bugs)` — a fresh list holding
the same records. -/
def list_bugs (t : Tracker) : List Bug := t.bugs

/-- Python `sorted(self.bugs, key=lambda x: x.id)` — stable sort ascending by
id (Python's `sorted` is a stable sort; so is insertion sort). -/
def sortById (l : List Bug) : List Bug :=
  List.insertionSort (fun a b => a.id ≤ b.id) l

/-- Character-level body of `text.replace("|", "\\|")`: every `|`
becomes `\|`. -/
def escChars : List Char → List Char
  | [] => []
  | c :: rest => if c = '|' then '\\' :: '|' :: escChars rest else c :: escChars rest

/-- The escape helper inside `to_markdown`: `text.replace("|", "\\|")`
(defined at the character level so that it computes by kernel
reduction). -/
def esc (text : String) : String := ⟨escChars text.data⟩

/-- Markdown header cells of `to_markdown`. -/
def mdHeaders : List String := ["ID", "描述", "优先级", "状态", "创建时间", "更新时间"]

/-- Model of `BugTracker.to_markdown`: header line, `---` separator line, one
line per record sorted ascending by id (only the description goes
through `esc`), and the placeholder line when the list is empty. -/
def to_markdown (t : Tracker) : String :=
  let line1 := "| " ++ String.intercalate " | " mdHeaders ++ " |"
  let line2 := "| " ++ String.intercalate " | " (List.replicate mdHeaders.length "---") ++ " |"
  let rows := (sortById t.bugs).map (fun b =>
    "| " ++ toString b.id ++ " | " ++ esc b.description ++ " | " ++ b.priority ++
    " | " ++ b.status ++ " | " ++ b.created_at ++ " | " ++ b.updated_at ++ " |")
  let lines := [line1, line2] ++ rows ++
    (if t.bugs.isEmpty then ["| (空) | - | - | - | - | - |"] else [])
  String.intercalate "\n" lines

/-! ## Operation traces

One process lifetime of a `BugTracker` instance is a sequence of
`add_bug` / `update_bug` / `delete_bug` calls on one `Tracker` state. -/

/-- One CRUD call, with its arguments (the timestamp argument models
`datetime.now()` at that call). -/
inductive Op where
  | add (description priority status now : String)
  | upd (bug_id : Int) (description priority status : Option String) (now : String)
  | del (bug_id : Int)

/-- The state after one call (results and save flags dropped). -/
def applyOp (t : Tracker) : Op → Tracker
  | .add d p s n => (add_bug t d p s n).2.1
  | .upd i d p s n => (update_bug t i d p s n).2.1
  | .del i => (delete_bug t i).2.1

/-- The state after a sequence of calls. -/
def runOps (t : Tracker) : List Op → Tracker :=
  List.foldl applyOp t

/-- The ids handed out by the `add_bug` calls of a trace, in call
order (each `add_bug` assigns `id = self._next_id`). -/
def assignedIds : Tracker → List Op → List Int
  | _, [] => []
  | t, op :: rest =>
      (match op with
       | .add _ _ _ _ => [t.next_id]
       | _ => []) ++ assignedIds (applyOp t op) rest

/-- Id discipline of a tracker state: every stored id is positive and
below the counter, stored ids are strictly increasing in list order
(hence unique), and the counter is at least 1. -/
def GoodIds (t : Tracker) : Prop :=
  (∀ i ∈ t.bugs.map Bug.id, 1 ≤ i ∧ i < t.next_id) ∧
  (t.bugs.map Bug.id).Pairwise (· < ·) ∧ 1 ≤ t.next_id

theorem goodIds_init : GoodIds initState := by
  refine ⟨?_, ?_, ?_⟩ <;> simp [initState]

theorem map_id_setFirst (l : List Bug) (i : Int) (nb : Bug) (h : nb.id = i) :
    (setFirst l i nb).map Bug.id = l.map Bug.id := by
  induction l with
  | nil => rfl
  | cons b rest ih =>
      by_cases hb : b.id = i
      · simp [setFirst, hb, h]
      · simp only [setFirst]
        rw [if_neg (by simpa using hb)]
        simp [ih]

/-- The operation `update_bug` never changes the multiset of ids: it only rewrites
fields of the record it found. -/
theorem update_bug_map_id (t : Tracker) (i : Int)
    (d p s : Option String) (now : String) :
    (update_bug t i d p s now).2.1.bugs.map Bug.id = t.bugs.map Bug.id := by
  unfold update_bug
  cases hfind : get_bug t i with
  | none => rfl
  | some bug0 =>
      have hid : bug0.id = i := by
        have := List.find?_some hfind
        simpa using this
      dsimp only
      split
      · apply map_id_setFirst
        show (applyStatus (applyPriority (applyDescription bug0 d) p) s).1.id = i
        rw [applyStatus_id, applyPriority_id, applyDescription_id, hid]
      · rfl

theorem update_bug_next_id (t : Tracker) (i : Int)
    (d p s : Option String) (now : String) :
    (update_bug t i d p s now).2.1.next_id = t.next_id := by
  unfold update_bug
  cases hfind : get_bug t i with
  | none => rfl
  | some bug0 =>
      dsimp only
      split <;> rfl

theorem delete_bug_sublist (t : Tracker) (i : Int) :
    ((delete_bug t i).2.1.bugs.map Bug.id).Sublist (t.bugs.map Bug.id) := by
  unfold delete_bug
  split <;> exact List.Sublist.map Bug.id (List.filter_sublist t.bugs)

theorem delete_bug_next_id (t : Tracker) (i : Int) :
    (delete_bug t i).2.1.next_id = t.next_id := by
  unfold delete_bug
  split <;> rfl

/-- The counter never decreases across a call. -/
theorem next_id_mono (t : Tracker) (op : Op) :
    t.next_id ≤ (applyOp t op).next_id := by
  cases op with
  | add d p s n =>
      have h : (applyOp t (.add d p s n)).next_id = t.next_id + 1 := rfl
      omega
  | upd i d p s n => rw [applyOp, update_bug_next_id]
  | del i => rw [applyOp, delete_bug_next_id]

theorem next_id_mono_runOps (t : Tracker) (ops : List Op) :
    t.next_id ≤ (runOps t ops).next_id := by
  induction ops generalizing t with
  | nil => exact le_refl _
  | cons op rest ih =>
      exact le_trans (next_id_mono t op) (ih (applyOp t op))

/-- Each call preserves the id discipline. -/
theorem goodIds_applyOp (t : Tracker) (op : Op) (hg : GoodIds t) :
    GoodIds (applyOp t op) := by
  obtain ⟨hmem, hpair, hnext⟩ := hg
  cases op with
  | add d p s n =>
      have hbugs : (applyOp t (.add d p s n)).bugs
          = t.bugs ++ [⟨t.next_id, pyStrip d, p, s, n, n⟩] := rfl
      have hn : (applyOp t (.add d p s n)).next_id = t.next_id + 1 := rfl
      refine ⟨?_, ?_, ?_⟩
      · intro i hi
        rw [hbugs, List.map_append] at hi
        rw [hn]
        rcases List.mem_append.mp hi with hi | hi
        · have := hmem i hi
          omega
        · have : i = t.next_id := by simpa using hi
          omega
      · rw [hbugs, List.map_append, List.pairwise_append]
        refine ⟨hpair, by simp, ?_⟩
        intro a ha b hb
        have hb' : b = t.next_id := by simpa using hb
        subst hb'
        exact (hmem a ha).2
      · rw [hn]
        omega
  | upd i d p s n =>
      refine ⟨?_, ?_, ?_⟩
      · intro j hj
        rw [applyOp, update_bug_map_id] at hj
        rw [applyOp, update_bug_next_id]
        exact hmem j hj
      · rw [applyOp, update_bug_map_id]
        exact hpair
      · rw [applyOp, update_bug_next_id]
        exact hnext
  | del i =>
      refine ⟨?_, ?_, ?_⟩
      · intro j hj
        rw [applyOp, delete_bug_next_id]
        exact hmem j ((delete_bug_sublist t i).subset hj)
      · exact List.Pairwise.sublist (delete_bug_sublist t i) hpair
      · rw [applyOp, delete_bug_next_id]
        exact hnext

theorem goodIds_runOps (t : Tracker) (ops : List Op) (hg : GoodIds t) :
    GoodIds (runOps t ops) := by
  induction ops generalizing t with
  | nil => exact hg
  | cons op rest ih => exact ih (applyOp t op) (goodIds_applyOp t op hg)

/-- Every id a trace assigns is at least the counter the trace started
from. -/
theorem assignedIds_lower (t : Tracker) (ops : List Op) :
    ∀ a ∈ assignedIds t ops, t.next_id ≤ a := by
  induction ops generalizing t with
  | nil => intro a ha; simp [assignedIds] at ha
  | cons op rest ih =>
      intro a ha
      simp only [assignedIds, List.mem_append] at ha
      rcases ha with ha | ha
      · cases op <;> simp_all
      · exact le_trans (next_id_mono t op) (ih (applyOp t op) a ha)

/-- Every id a trace assigns is below the final counter. -/
theorem assignedIds_upper (t : Tracker) (ops : List Op) :
    ∀ a ∈ assignedIds t ops, a < (runOps t ops).next_id := by
  induction ops generalizing t with
  | nil => intro a ha; simp [assignedIds] at ha
  | cons op rest ih =>
      intro a ha
      simp only [assignedIds, List.mem_append] at ha
      rcases ha with ha | ha
      · cases op with
        | add d p s n =>
            simp only [List.mem_singleton] at ha
            subst ha
            calc t.next_id < (applyOp t (.add d p s n)).next_id := by
                  have h : (applyOp t (.add d p s n)).next_id = t.next_id + 1 := rfl
                  omega
              _ ≤ (runOps (applyOp t (.add d p s n)) rest).next_id :=
                  next_id_mono_runOps _ rest
        | upd i d p s n => simp at ha
        | del i => simp at ha
      · exact ih (applyOp t op) a ha

/-- Ids are assigned in strictly increasing order along a trace. -/
theorem assignedIds_pairwise (t : Tracker) (ops : List Op) :
    (assignedIds t ops).Pairwise (· < ·) := by
  induction ops generalizing t with
  | nil => simp [assignedIds]
  | cons op rest ih =>
      simp only [assignedIds]
      rw [List.pairwise_append]
      refine ⟨?_, ih (applyOp t op), ?_⟩
      · cases op <;> simp
      · intro a ha b hb
        cases op with
        | add d p s n =>
            simp only [List.mem_singleton] at ha
            subst ha
            have := assignedIds_lower (applyOp t (.add d p s n)) rest b hb
            simp only [applyOp, add_bug] at this
            omega
        | upd i d p s n => simp at ha
        | del i => simp at ha

/-! ## Helper lemmas: serialization round trip, `setFirst`, `maxId` -/

theorem from_dict_to_dict (b : Bug) : Bug.from_dict b.to_dict = some b := rfl

theorem loadItems_dump (bugs : List Bug) :
    loadItems (bugs.map (fun b => Json.obj b.to_dict)) = some bugs := by
  induction bugs with
  | nil => rfl
  | cons b rest ih =>
      simp only [List.map_cons, loadItems, itemToBug, from_dict_to_dict, ih,
        Option.bind_eq_bind, Option.some_bind, Option.pure_def]

theorem lookup_some_mem_keys {β : Type} (l : List (String × β)) (k : String)
    (v : β) (h : l.lookup k = some v) : k ∈ l.map Prod.fst := by
  induction l with
  | nil => simp [List.lookup] at h
  | cons kv rest ih =>
      obtain ⟨k', v'⟩ := kv
      by_cases hk : k = k'
      · subst hk
        simp
      · have hbeq : (k == k') = false := by simp [hk]
        simp only [List.lookup, hbeq] at h
        simpa using Or.inr (ih h)

/-- A successful `Bug.from_dict` pins the keyword set: the map's keys
are exactly the six dataclass field names. -/
theorem from_dict_keys_perm (fields : List (String × Json)) (b : Bug)
    (h : Bug.from_dict fields = some b) :
    (fields.map Prod.fst).Perm requiredKeys := by
  unfold Bug.from_dict at h
  split at h
  · next i d p st c u h1 h2 h3 h4 h5 h6 =>
      split at h
      · next hlen =>
          have hsub : requiredKeys ⊆ fields.map Prod.fst := by
            intro k hk
            simp only [requiredKeys, List.mem_cons, List.not_mem_nil, or_false] at hk
            rcases hk with rfl | rfl | rfl | rfl | rfl | rfl
            · exact lookup_some_mem_keys _ _ _ h1
            · exact lookup_some_mem_keys _ _ _ h2
            · exact lookup_some_mem_keys _ _ _ h3
            · exact lookup_some_mem_keys _ _ _ h4
            · exact lookup_some_mem_keys _ _ _ h5
            · exact lookup_some_mem_keys _ _ _ h6
          have hnodup : requiredKeys.Nodup := by decide
          have hlen2 : (fields.map Prod.fst).length ≤ requiredKeys.length := by
            simp [hlen, requiredKeys]
          exact ((hnodup.subperm hsub).perm_of_length_le hlen2).symm
      · simp at h
  · simp at h

/-- A record object the typed embedding reads back successfully also
constructs in Python: its keyword set is right. -/
theorem itemKeysOk_of_itemToBug_some (j : Json) (b : Bug)
    (h : itemToBug j = some b) : itemKeysOk j = true := by
  cases j with
  | obj fields =>
      simp only [itemToBug] at h
      simp only [itemKeysOk]
      exact List.isPerm_iff.mpr (from_dict_keys_perm fields b h)
  | num n => simp [itemToBug] at h
  | str s => simp [itemToBug] at h
  | arr l => simp [itemToBug] at h

/-- When the whole array reads back into typed records, every item
passes the keyword check. -/
theorem all_keysOk_of_loadItems_some (items : List Json) (bugs : List Bug)
    (h : loadItems items = some bugs) : items.all itemKeysOk = true := by
  induction items generalizing bugs with
  | nil => rfl
  | cons j rest ih =>
      simp only [loadItems, Option.bind_eq_bind] at h
      cases hj : itemToBug j with
      | none => rw [hj] at h; simp at h
      | some b =>
          rw [hj] at h
          simp only [Option.some_bind] at h
          cases hr : loadItems rest with
          | none => rw [hr] at h; simp at h
          | some bs =>
              rw [List.all_cons, itemKeysOk_of_itemToBug_some j b hj, Bool.true_and]
              exact ih bs hr

/-- Every object `save` writes has exactly the required keys. -/
theorem all_keysOk_dump (bugs : List Bug) :
    (bugs.map (fun b => Json.obj b.to_dict)).all itemKeysOk = true := by
  rw [List.all_eq_true]
  intro x hx
  simp only [List.mem_map] at hx
  obtain ⟨b, _, rfl⟩ := hx
  rfl

/-- Replacing the record `find?` located, by a record with the same id,
leaves `find?` pointing at the replacement. -/
theorem find?_setFirst (l : List Bug) (i : Int) (nb : Bug) (bug0 : Bug)
    (hfind : l.find? (fun b => b.id == i) = some bug0) (h : nb.id = i) :
    (setFirst l i nb).find? (fun b => b.id == i) = some nb := by
  induction l with
  | nil => simp [List.find?] at hfind
  | cons b rest ih =>
      by_cases hb : b.id = i
      · simp [setFirst, List.find?_cons, hb, h]
      · have hbf : ¬((fun x : Bug => x.id == i) b = true) := by simp [hb]
        rw [@List.find?_cons_of_neg Bug (fun x => x.id == i) b rest hbf] at hfind
        simp only [setFirst]
        rw [if_neg (by simp [hb] : ¬((b.id == i) = true)),
          @List.find?_cons_of_neg Bug (fun x => x.id == i) b (setFirst rest i nb) hbf]
        exact ih hfind

theorem foldl_max_le_init (l : List Bug) (acc : Int) :
    acc ≤ l.foldl (fun a x => max a x.id) acc := by
  induction l generalizing acc with
  | nil => exact le_refl _
  | cons b rest ih =>
      exact le_trans (le_max_left acc b.id) (ih (max acc b.id))

theorem mem_le_foldl_max (l : List Bug) (acc : Int) :
    ∀ x ∈ l, x.id ≤ l.foldl (fun a y => max a y.id) acc := by
  induction l generalizing acc with
  | nil => intro x hx; simp at hx
  | cons b rest ih =>
      intro x hx
      rcases List.mem_cons.mp hx with hx | hx
      · subst hx
        exact le_trans (le_max_right acc x.id) (foldl_max_le_init rest _)
      · exact ih (max acc b.id) x hx

/-- Every stored id is bounded by `max(b.id for b in bugs)`. -/
theorem le_maxId (bugs : List Bug) (b : Bug) (hb : b ∈ bugs) :
    b.id ≤ maxId bugs := by
  cases bugs with
  | nil => simp at hb
  | cons x rest =>
      rcases List.mem_cons.mp hb with hb | hb
      · subst hb
        exact foldl_max_le_init rest b.id
      · exact mem_le_foldl_max rest x.id b hb

/-! ## Characterization of `update_bug` -/

theorem applyDescription_fields (b : Bug) (d : Option String) :
    (applyDescription b d).1.priority = b.priority ∧
    (applyDescription b d).1.status = b.status ∧
    (applyDescription b d).1.created_at = b.created_at ∧
    (applyDescription b d).1.updated_at = b.updated_at := by
  unfold applyDescription
  cases d with
  | none => exact ⟨rfl, rfl, rfl, rfl⟩
  | some d => dsimp only; split <;> exact ⟨rfl, rfl, rfl, rfl⟩

theorem applyPriority_fields (st : Bug × Bool) (p : Option String) :
    (applyPriority st p).1.description = st.1.description ∧
    (applyPriority st p).1.status = st.1.status ∧
    (applyPriority st p).1.created_at = st.1.created_at ∧
    (applyPriority st p).1.updated_at = st.1.updated_at := by
  unfold applyPriority
  cases p with
  | none => exact ⟨rfl, rfl, rfl, rfl⟩
  | some p => dsimp only; split <;> exact ⟨rfl, rfl, rfl, rfl⟩

theorem applyStatus_fields (st : Bug × Bool) (s : Option String) :
    (applyStatus st s).1.description = st.1.description ∧
    (applyStatus st s).1.priority = st.1.priority ∧
    (applyStatus st s).1.created_at = st.1.created_at ∧
    (applyStatus st s).1.updated_at = st.1.updated_at := by
  unfold applyStatus
  cases s with
  | none => exact ⟨rfl, rfl, rfl, rfl⟩
  | some s => dsimp only; split <;> exact ⟨rfl, rfl, rfl, rfl⟩

theorem applyDescription_snd (b : Bug) (d : Option String) :
    (applyDescription b d).2 = true ↔
      ∃ dv, d = some dv ∧ pyStrip dv ≠ "" ∧ pyStrip dv ≠ b.description := by
  unfold applyDescription
  cases d with
  | none => simp
  | some d =>
      dsimp only
      by_cases h : pyStrip d ≠ "" ∧ pyStrip d ≠ b.description
      · rw [if_pos h]; simpa using h
      · rw [if_neg h]; simpa using h

theorem applyPriority_snd (st : Bug × Bool) (p : Option String) :
    (applyPriority st p).2 = true ↔
      (∃ pv, p = some pv ∧ pv ≠ st.1.priority) ∨ st.2 = true := by
  unfold applyPriority
  cases p with
  | none => simp
  | some p => dsimp only; split <;> simp_all

theorem applyStatus_snd (st : Bug × Bool) (s : Option String) :
    (applyStatus st s).2 = true ↔
      (∃ sv, s = some sv ∧ sv ≠ st.1.status) ∨ st.2 = true := by
  unfold applyStatus
  cases s with
  | none => simp
  | some s => dsimp only; split <;> simp_all

/-- The `changed` flag of `update_bug`, in terms of the record the
lookup found: some supplied field actually changes the stored value
(where a supplied description counts only if non-empty after
trimming). -/
theorem update_changed_iff (b : Bug) (d p s : Option String) :
    (applyStatus (applyPriority (applyDescription b d) p) s).2 = true ↔
      (∃ dv, d = some dv ∧ pyStrip dv ≠ "" ∧ pyStrip dv ≠ b.description) ∨
      (∃ pv, p = some pv ∧ pv ≠ b.priority) ∨
      (∃ sv, s = some sv ∧ sv ≠ b.status) := by
  rw [applyStatus_snd, applyPriority_snd, applyDescription_snd,
    (applyPriority_fields _ p).2.1, (applyDescription_fields b d).2.1,
    (applyDescription_fields b d).1]
  exact (by tauto : ∀ (A B C : Prop), (C ∨ B ∨ A) ↔ (A ∨ B ∨ C)) _ _ _

theorem update_bug_fst (t : Tracker) (i : Int) (d p s : Option String)
    (now : String) (bug0 : Bug) (hfind : get_bug t i = some bug0) :
    (update_bug t i d p s now).1
      = (applyStatus (applyPriority (applyDescription bug0 d) p) s).2 := by
  unfold update_bug
  rw [hfind]
  dsimp only
  split
  · next h => exact h.symm
  · next h =>
      simp only [Bool.not_eq_true] at h
      exact h.symm

/-- The operation `update_bug` persists (calls `save`) exactly when it reports a
change. -/
theorem update_bug_saved_eq (t : Tracker) (i : Int) (d p s : Option String)
    (now : String) :
    (update_bug t i d p s now).2.2 = (update_bug t i d p s now).1 := by
  unfold update_bug
  cases get_bug t i with
  | none => rfl
  | some bug0 => dsimp only; split <;> rfl

/-- When `update_bug` reports no change, the tracker state is exactly
the input state. -/
theorem update_bug_false_state (t : Tracker) (i : Int) (d p s : Option String)
    (now : String) (h : (update_bug t i d p s now).1 = false) :
    (update_bug t i d p s now).2.1 = t := by
  unfold update_bug at h ⊢
  cases hf : get_bug t i with
  | none => rfl
  | some bug0 =>
      rw [hf] at h
      dsimp only at h ⊢
      by_cases hc : (applyStatus (applyPriority (applyDescription bug0 d) p) s).2 = true
      · rw [if_pos hc] at h
        simp at h
      · rw [if_neg hc]

/-- When `update_bug` reports a change, the stored record with that id
is the stepped record with `updated_at` stamped to `now`. -/
theorem update_bug_true_state (t : Tracker) (i : Int) (d p s : Option String)
    (now : String) (bug0 : Bug) (hfind : get_bug t i = some bug0)
    (hch : (update_bug t i d p s now).1 = true) :
    get_bug (update_bug t i d p s now).2.1 i
      = some { (applyStatus (applyPriority (applyDescription bug0 d) p) s).1
               with updated_at := now } := by
  have hst : (applyStatus (applyPriority (applyDescription bug0 d) p) s).2 = true := by
    rw [← update_bug_fst t i d p s now bug0 hfind]
    exact hch
  have hid : bug0.id = i := by simpa using List.find?_some hfind
  have hnb : ({ (applyStatus (applyPriority (applyDescription bug0 d) p) s).1
                with updated_at := now } : Bug).id = i := by
    show (applyStatus (applyPriority (applyDescription bug0 d) p) s).1.id = i
    rw [applyStatus_id, applyPriority_id, applyDescription_id, hid]
  unfold update_bug
  rw [hfind]
  dsimp only
  rw [if_pos hst]
  exact find?_setFirst t.bugs i _ bug0 hfind hnb

/-! ## Object-identity model for `list_bugs`

Model of Python object identity for the aliasing question: `Bug`
dataclass instances are mutable objects living on a heap, and both the
store's internal list `self.bugs` and the list `list(self.bugs)`
returned by `list_bugs` hold references to those objects. -/

/-- Heap of `Bug` objects; a reference is an index. -/
abbrev Heap : Type := List Bug

/-- A store whose internal list holds references into the heap. -/
structure RefTracker where
  refs : List Nat

/-- Model of `list(self.bugs)`: a fresh list object containing the
same references, in the same order. -/
def list_bugs_refs (t : RefTracker) : List Nat := t.refs

/-- Dereference: the object a reference points to. -/
def readBug (h : Heap) (r : Nat) : Bug :=
  (h[r]?).getD ⟨0, "", "", "", "", ""⟩

/-- The records of the store's collection, as seen through its
references. -/
def storeView (h : Heap) (t : RefTracker) : List Bug :=
  t.refs.map (readBug h)

/-- Model of a caller running `bug.description = d` on a record object
it got from `list_bugs` (dataclasses are mutable): an in-place heap
write through the reference. -/
def writeDescription (h : Heap) (r : Nat) (d : String) : Heap :=
  match h[r]? with
  | some b => List.set h r { b with description := d }
  | none => h

theorem readBug_writeDescription (h : Heap) (r : Nat) (d : String)
    (hv : r < List.length h) :
    readBug (writeDescription h r d) r = { readBug h r with description := d } := by
  have hr : h[r]? = some h[r] := List.getElem?_eq_getElem hv
  unfold writeDescription readBug
  rw [hr, List.getElem?_set_self (by simpa using hv)]
  rfl

/-! ## Sortedness instances for the export table -/

instance : IsTotal Bug (fun a b => a.id ≤ b.id) :=
  ⟨fun a b => le_total a.id b.id⟩

instance : IsTrans Bug (fun a b => a.id ≤ b.id) :=
  ⟨fun _ _ _ hab hbc => le_trans hab hbc⟩

/-! ## The claims -/

/-- C1, counterexample: `add_bug` performs no validation.  Called with
a whitespace-only description on a fresh store, it returns a record
with empty description, appends it, bumps the next-id counter from 1
to 2, and saves — contradicting "fails with a validation error: no
Record is appended, the next-id counter is unchanged, and nothing is
persisted". -/
theorem add_bug_accepts_blank_cex :
    add_bug initState "   " "Low" "Open" "T"
      = (⟨1, "", "Low", "Open", "T", "T"⟩,
         ⟨[⟨1, "", "Low", "Open", "T", "T"⟩], 2⟩, true) := by decide

/-- C1, amended: for every description that is empty or
whitespace-only after trimming, `add_bug` still appends a Record
(whose stored description is the empty string), increments the next-id
counter, and persists.  The store itself performs no validation; the
empty-description check lives only in the GUI handler `on_add`, which
returns before calling `add_bug`. -/
theorem add_bug_blank_no_validation (t : Tracker) (d p s now : String)
    (hd : pyStrip d = "") :
    add_bug t d p s now
      = (⟨t.next_id, "", p, s, now, now⟩,
         ⟨t.bugs ++ [⟨t.next_id, "", p, s, now, now⟩], t.next_id + 1⟩, true) := by
  simp [add_bug, hd]

/-- C1, witness for `add_bug_blank_no_validation` at a concrete
whitespace-only description. -/
theorem add_bug_blank_no_validation_witness :
    pyStrip "   " = "" ∧
    add_bug initState "   " "High" "Open" "T"
      = (⟨1, "", "High", "Open", "T", "T"⟩,
         ⟨[⟨1, "", "High", "Open", "T", "T"⟩], 2⟩, true) :=
  ⟨by decide, add_bug_blank_no_validation initState "   " "High" "Open" "T" (by decide)⟩

/-- C2: starting from a fresh store, after any sequence of
create/update/delete calls the stored ids are unique and positive; the
ids assigned by successive creates are strictly increasing in call
order, so an id is never reused even after deletions; and in the
concrete scenario create ×3 (ids 1,2,3), delete id 2, create again,
the fourth create receives id 4, not 2. -/
theorem ids_unique_positive_never_reused (ops : List Op) :
    ((runOps initState ops).bugs.map Bug.id).Nodup ∧
    (∀ i ∈ (runOps initState ops).bugs.map Bug.id, 1 ≤ i) ∧
    (assignedIds initState ops).Pairwise (· < ·) ∧
    (runOps initState
      [.add "a" "Low" "Open" "T1", .add "b" "Low" "Open" "T2",
       .add "c" "Low" "Open" "T3", .del 2,
       .add "d" "Low" "Open" "T4"]).bugs.map Bug.id = [1, 3, 4] := by
  obtain ⟨hmem, hpair, _⟩ := goodIds_runOps initState ops goodIds_init
  exact ⟨hpair.imp ne_of_lt, fun i hi => (hmem i hi).1,
    assignedIds_pairwise initState ops, by decide⟩

/-- C4: save-then-load round trip.  For every non-empty collection,
loading the JSON that `save` wrote reproduces exactly the same records
with the same field values in the same order (the counter is
recomputed as max id + 1), without any warning; and the description is
stored unescaped in the persisted JSON — pipe characters included — as
witnessed by the serialized field being the raw description string. -/
theorem save_load_roundtrip (bugs : List Bug) (hne : bugs ≠ []) :
    load (.validJson (dump bugs)) = .ok ⟨bugs, maxId bugs + 1⟩ false ∧
    ∀ b ∈ bugs, b.to_dict.lookup "description" = some (.str b.description) := by
  have hempty : bugs.isEmpty = false := by
    simpa [List.isEmpty_eq_false] using hne
  constructor
  · simp [load, dump, loadItems_dump, hempty, all_keysOk_dump]
  · intro b _
    rfl

/-- C4, witness for `save_load_roundtrip` on a one-record collection
whose description contains a literal pipe character. -/
theorem save_load_roundtrip_witness :
    ([⟨1, "a|b", "High", "Open", "T", "T"⟩] : List Bug) ≠ [] ∧
    (load (.validJson (dump [⟨1, "a|b", "High", "Open", "T", "T"⟩]))
        = .ok ⟨[⟨1, "a|b", "High", "Open", "T", "T"⟩], 2⟩ false ∧
     ∀ b ∈ ([⟨1, "a|b", "High", "Open", "T", "T"⟩] : List Bug),
       b.to_dict.lookup "description" = some (.str b.description)) :=
  ⟨by decide, save_load_roundtrip [⟨1, "a|b", "High", "Open", "T", "T"⟩] (by decide)⟩

/-- C5, counterexample: on a record storing description "x", an update
supplying description "  " — a value that differs from the stored one,
before and after trimming — reports no change, does not stamp
`updated_at`, and does not persist; this refutes "stamps a new
updated_at and persists if and only if at least one supplied field
actually differs from the stored value". -/
theorem update_blank_differs_cex :
    pyStrip "  " ≠ "x" ∧ ("  " : String) ≠ "x" ∧
    update_bug ⟨[⟨1, "x", "Low", "Open", "T", "T"⟩], 2⟩ 1 (some "  ") none none "U"
      = (false, ⟨[⟨1, "x", "Low", "Open", "T", "T"⟩], 2⟩, false) := by decide

/-- C5, amended: for an existing record, `update_bug` stamps a new
`updated_at` and persists if and only if at least one supplied field
actually differs from the stored value, where a supplied description
counts only if it is non-empty after trimming (and is compared after
trimming); the boolean result reports exactly whether a change
occurred, persistence happens exactly on a change, and on no change
the whole store state — `updated_at` and all other fields included —
is left unchanged.  In particular, `update(id, status="Done")` on a
record already in status "Done" reports no change and alters
nothing. -/
theorem update_stamps_iff_changed (t : Tracker) (i : Int)
    (d p s : Option String) (now : String) (bug0 : Bug)
    (hfind : get_bug t i = some bug0) :
    ((update_bug t i d p s now).1 = true ↔
      (∃ dv, d = some dv ∧ pyStrip dv ≠ "" ∧ pyStrip dv ≠ bug0.description) ∨
      (∃ pv, p = some pv ∧ pv ≠ bug0.priority) ∨
      (∃ sv, s = some sv ∧ sv ≠ bug0.status)) ∧
    ((update_bug t i d p s now).2.2 = (update_bug t i d p s now).1) ∧
    ((update_bug t i d p s now).1 = false → (update_bug t i d p s now).2.1 = t) ∧
    ((update_bug t i d p s now).1 = true →
      ∃ b', get_bug (update_bug t i d p s now).2.1 i = some b' ∧
        b'.updated_at = now ∧ b'.created_at = bug0.created_at ∧ b'.id = bug0.id) := by
  refine ⟨?_, update_bug_saved_eq t i d p s now,
    update_bug_false_state t i d p s now, ?_⟩
  · rw [update_bug_fst t i d p s now bug0 hfind]
    exact update_changed_iff bug0 d p s
  · intro hch
    refine ⟨_, update_bug_true_state t i d p s now bug0 hfind hch, rfl, ?_, ?_⟩
    · show (applyStatus (applyPriority (applyDescription bug0 d) p) s).1.created_at
        = bug0.created_at
      rw [(applyStatus_fields _ s).2.2.1, (applyPriority_fields _ p).2.2.1,
        (applyDescription_fields bug0 d).2.2.1]
    · show (applyStatus (applyPriority (applyDescription bug0 d) p) s).1.id = bug0.id
      rw [applyStatus_id, applyPriority_id, applyDescription_id]

/-- C5, witness for `update_stamps_iff_changed`: the already-"Done"
instance — updating only the status, to the value already stored. -/
theorem update_stamps_iff_changed_witness :
    get_bug ⟨[⟨1, "x", "Low", "Done", "T", "T"⟩], 2⟩ 1
      = some ⟨1, "x", "Low", "Done", "T", "T"⟩ ∧
    (((update_bug ⟨[⟨1, "x", "Low", "Done", "T", "T"⟩], 2⟩ 1 none none
        (some "Done") "U").1 = true ↔
      (∃ dv, (none : Option String) = some dv ∧ pyStrip dv ≠ "" ∧
        pyStrip dv ≠ (⟨1, "x", "Low", "Done", "T", "T"⟩ : Bug).description) ∨
      (∃ pv, (none : Option String) = some pv ∧
        pv ≠ (⟨1, "x", "Low", "Done", "T", "T"⟩ : Bug).priority) ∨
      (∃ sv, (some "Done" : Option String) = some sv ∧
        sv ≠ (⟨1, "x", "Low", "Done", "T", "T"⟩ : Bug).status)) ∧
     ((update_bug ⟨[⟨1, "x", "Low", "Done", "T", "T"⟩], 2⟩ 1 none none
        (some "Done") "U").2.2
       = (update_bug ⟨[⟨1, "x", "Low", "Done", "T", "T"⟩], 2⟩ 1 none none
        (some "Done") "U").1) ∧
     ((update_bug ⟨[⟨1, "x", "Low", "Done", "T", "T"⟩], 2⟩ 1 none none
        (some "Done") "U").1 = false →
      (update_bug ⟨[⟨1, "x", "Low", "Done", "T", "T"⟩], 2⟩ 1 none none
        (some "Done") "U").2.1 = ⟨[⟨1, "x", "Low", "Done", "T", "T"⟩], 2⟩) ∧
     ((update_bug ⟨[⟨1, "x", "Low", "Done", "T", "T"⟩], 2⟩ 1 none none
        (some "Done") "U").1 = true →
      ∃ b', get_bug (update_bug ⟨[⟨1, "x", "Low", "Done", "T", "T"⟩], 2⟩ 1 none none
          (some "Done") "U").2.1 1 = some b' ∧
        b'.updated_at = "U" ∧
        b'.created_at = (⟨1, "x", "Low", "Done", "T", "T"⟩ : Bug).created_at ∧
        b'.id = (⟨1, "x", "Low", "Done", "T", "T"⟩ : Bug).id)) :=
  ⟨rfl, update_stamps_iff_changed ⟨[⟨1, "x", "Low", "Done", "T", "T"⟩], 2⟩ 1
    none none (some "Done") "U" ⟨1, "x", "Low", "Done", "T", "T"⟩ rfl⟩

/-- C6: an update whose supplied description trims to the empty string
never overwrites the stored description — the requested description
change is silently ignored (the operation is total; no error outcome
exists), whatever else is supplied; and if no other field is supplied
the call is a complete no-op: result `false`, state unchanged, nothing
persisted. -/
theorem blank_description_never_overwrites (t : Tracker) (i : Int)
    (dv now : String) (p s : Option String) (bug0 : Bug)
    (hd : pyStrip dv = "") (hfind : get_bug t i = some bug0) :
    (∃ b', get_bug (update_bug t i (some dv) p s now).2.1 i = some b' ∧
       b'.description = bug0.description) ∧
    update_bug t i (some dv) none none now = (false, t, false) := by
  have hblank : applyDescription bug0 (some dv) = (bug0, false) := by
    unfold applyDescription
    dsimp only
    rw [if_neg (by simp [hd])]
  constructor
  · cases hch : (update_bug t i (some dv) p s now).1 with
    | false =>
        rw [update_bug_false_state t i (some dv) p s now hch]
        exact ⟨bug0, hfind, rfl⟩
    | true =>
        refine ⟨_, update_bug_true_state t i (some dv) p s now bug0 hfind hch, ?_⟩
        show (applyStatus (applyPriority (applyDescription bug0 (some dv)) p) s).1.description
          = bug0.description
        rw [(applyStatus_fields _ s).1, (applyPriority_fields _ p).1, hblank]
  · unfold update_bug
    rw [hfind]
    dsimp only
    rw [hblank]
    rfl

/-- C6, witness for `blank_description_never_overwrites` at a concrete
record and the whitespace-only description "  ". -/
theorem blank_description_never_overwrites_witness :
    pyStrip "  " = "" ∧
    get_bug ⟨[⟨1, "keep", "Low", "Open", "T", "T"⟩], 2⟩ 1
      = some ⟨1, "keep", "Low", "Open", "T", "T"⟩ ∧
    ((∃ b', get_bug (update_bug ⟨[⟨1, "keep", "Low", "Open", "T", "T"⟩], 2⟩ 1
        (some "  ") none (some "Done") "U").2.1 1 = some b' ∧
       b'.description = (⟨1, "keep", "Low", "Open", "T", "T"⟩ : Bug).description) ∧
     update_bug ⟨[⟨1, "keep", "Low", "Open", "T", "T"⟩], 2⟩ 1
        (some "  ") none none "U"
       = (false, ⟨[⟨1, "keep", "Low", "Open", "T", "T"⟩], 2⟩, false)) :=
  ⟨by decide, rfl,
   blank_description_never_overwrites ⟨[⟨1, "keep", "Low", "Open", "T", "T"⟩], 2⟩ 1
     "  " "U" none (some "Done") ⟨1, "keep", "Low", "Open", "T", "T"⟩ (by decide) rfl⟩

/-- C7: for an id not present in the store, both mutating operations
are pure no-ops surfaced as boolean results: `update_bug` returns the
not-found signal `False` with the state unchanged and without saving,
and `delete_bug` returns `False` with the state unchanged and without
saving. -/
theorem missing_id_noop (t : Tracker) (i : Int) (d p s : Option String)
    (now : String) (h : ∀ b ∈ t.bugs, b.id ≠ i) :
    update_bug t i d p s now = (false, t, false) ∧
    delete_bug t i = (false, t, false) := by
  have hfind : get_bug t i = none := by
    rw [get_bug, List.find?_eq_none]
    intro b hb
    simpa using h b hb
  constructor
  · unfold update_bug
    rw [hfind]
  · have hfilter : t.bugs.filter (fun b => b.id ≠ i) = t.bugs :=
      List.filter_eq_self.mpr (fun b hb => by simpa using h b hb)
    unfold delete_bug
    rw [hfilter]
    simp

/-- C7, witness for `missing_id_noop` at a concrete store and the
absent id 99. -/
theorem missing_id_noop_witness :
    (∀ b ∈ ([⟨1, "x", "Low", "Open", "T", "T"⟩] : List Bug), b.id ≠ 99) ∧
    (update_bug ⟨[⟨1, "x", "Low", "Open", "T", "T"⟩], 2⟩ 99 (some "y") none none "U"
       = (false, ⟨[⟨1, "x", "Low", "Open", "T", "T"⟩], 2⟩, false) ∧
     delete_bug ⟨[⟨1, "x", "Low", "Open", "T", "T"⟩], 2⟩ 99
       = (false, ⟨[⟨1, "x", "Low", "Open", "T", "T"⟩], 2⟩, false)) :=
  ⟨by decide, missing_id_noop ⟨[⟨1, "x", "Low", "Open", "T", "T"⟩], 2⟩ 99
    (some "y") none none "U" (by decide)⟩

/-- C8, counterexample: `to_markdown` escapes pipes only in the
description field.  A record whose priority is the string "a|b" is
rendered with that pipe verbatim — the whole output contains no
backslash at all — so a pipe in a non-description field is not escaped
and can be mistaken for a column separator, refuting "any literal pipe
character in a field is escaped". -/
theorem to_markdown_pipe_cex :
    to_markdown ⟨[⟨1, "d", "a|b", "Open", "T", "U"⟩], 2⟩
      = "| ID | 描述 | 优先级 | 状态 | 创建时间 | 更新时间 |\n| --- | --- | --- | --- | --- | --- |\n| 1 | d | a|b | Open | T | U |" ∧
    ('\\' ∈ (to_markdown ⟨[⟨1, "d", "a|b", "Open", "T", "U"⟩], 2⟩).data) = False ∧
    '|' ∈ ("a|b" : String).data := by
  refine ⟨by decide, ?_, by decide⟩
  simp only [eq_iff_iff, iff_false]
  decide

/-- C8, amended: `to_markdown` produces the pipe-separated header row,
a `---` separator row, and one row per record sorted ascending by id
(the sorted sequence is a permutation of the collection), where the
description field — and only the description field — has every literal
pipe escaped as `\\|`; when the collection is empty it emits the
single placeholder row `| (空) | - | - | - | - | - |`. -/
theorem to_markdown_table (t : Tracker) :
    to_markdown t = String.intercalate "\n"
      (["| " ++ String.intercalate " | " mdHeaders ++ " |",
        "| " ++ String.intercalate " | " (List.replicate mdHeaders.length "---") ++ " |"]
       ++ (sortById t.bugs).map (fun b =>
            "| " ++ toString b.id ++ " | " ++ esc b.description ++ " | " ++ b.priority ++
            " | " ++ b.status ++ " | " ++ b.created_at ++ " | " ++ b.updated_at ++ " |")
       ++ (if t.bugs.isEmpty then ["| (空) | - | - | - | - | - |"] else [])) ∧
    ((sortById t.bugs).map Bug.id).Pairwise (· ≤ ·) ∧
    (sortById t.bugs).Perm t.bugs := by
  refine ⟨rfl, ?_, List.perm_insertionSort _ _⟩
  rw [List.pairwise_map]
  exact List.sorted_insertionSort (fun a b : Bug => a.id ≤ b.id) t.bugs

/-- C9, counterexample: `list_bugs` returns a shallow copy, so the
record objects themselves are shared.  A caller that takes the first
reference from the returned list and mutates that record's description
in place changes what the store's own collection contains — refuting
"no mutation a caller performs through the returned value can change
the store's internal collection". -/
theorem list_bugs_alias_cex :
    storeView
        (writeDescription [⟨1, "old", "Low", "Open", "T", "T"⟩]
          ((list_bugs_refs ⟨[0]⟩).headD 0) "hacked")
        ⟨[0]⟩
      ≠ storeView [⟨1, "old", "Low", "Open", "T", "T"⟩] ⟨[0]⟩ := by decide

/-- C9, amended: `list_bugs` returns a shallow copy — a fresh list
holding the same record references in insertion order, so the caller
cannot change the store's internal list through list operations on the
returned value; but the records are shared, and an in-place field
mutation through any returned reference is visible in the store's
collection. -/
theorem list_bugs_shallow_copy (t : RefTracker) (h : Heap) (r : Nat)
    (d : String) (hr : r ∈ list_bugs_refs t) (hv : r < List.length h)
    (hd : (readBug h r).description ≠ d) :
    list_bugs_refs t = t.refs ∧
    storeView (writeDescription h r d) t ≠ storeView h t := by
  refine ⟨rfl, ?_⟩
  intro heq
  unfold storeView at heq
  have hpt := List.map_inj_left.mp heq r hr
  rw [readBug_writeDescription h r d hv] at hpt
  have hdesc : ({ readBug h r with description := d } : Bug).description
      = (readBug h r).description := by rw [hpt]
  simp at hdesc
  exact hd hdesc.symm

/-- C9, witness for `list_bugs_shallow_copy` at a concrete one-record
heap. -/
theorem list_bugs_shallow_copy_witness :
    (0 : Nat) ∈ list_bugs_refs ⟨[0]⟩ ∧
    0 < List.length ([⟨1, "old", "Low", "Open", "T", "T"⟩] : Heap) ∧
    (readBug [⟨1, "old", "Low", "Open", "T", "T"⟩] 0).description ≠ "hacked" ∧
    (list_bugs_refs ⟨[0]⟩ = [0] ∧
     storeView (writeDescription [⟨1, "old", "Low", "Open", "T", "T"⟩] 0 "hacked") ⟨[0]⟩
       ≠ storeView [⟨1, "old", "Low", "Open", "T", "T"⟩] ⟨[0]⟩) :=
  ⟨by decide, by decide, by decide,
   list_bugs_shallow_copy ⟨[0]⟩ [⟨1, "old", "Low", "Open", "T", "T"⟩] 0 "hacked"
     (by decide) (by decide) (by decide)⟩

/-- C10: when `load` succeeds on a decodable non-empty array, the
counter is inferred from the file contents as max loaded id + 1 — it
is not stored in the file — so it strictly bounds every loaded id, and
every id assigned by a later create in the same process is strictly
greater than every loaded id. -/
theorem load_next_id_inferred (items : List Json) (bugs : List Bug)
    (hload : loadItems items = some bugs) (hne : bugs ≠ []) :
    load (.validJson (.arr items)) = .ok ⟨bugs, maxId bugs + 1⟩ false ∧
    (∀ b ∈ bugs, b.id < maxId bugs + 1) ∧
    ∀ ops a, a ∈ assignedIds ⟨bugs, maxId bugs + 1⟩ ops →
      ∀ b ∈ bugs, b.id < a := by
  have hempty : bugs.isEmpty = false := by
    simpa [List.isEmpty_eq_false] using hne
  have hall := all_keysOk_of_loadItems_some items bugs hload
  refine ⟨by simp [load, hload, hempty, hall], ?_, ?_⟩
  · intro b hb
    have := le_maxId bugs b hb
    omega
  · intro ops a ha b hb
    have h1 : maxId bugs + 1 ≤ a :=
      assignedIds_lower ⟨bugs, maxId bugs + 1⟩ ops a ha
    have h2 := le_maxId bugs b hb
    omega

/-- C10, witness for `load_next_id_inferred` at a concrete file with
one record of id 5: load yields next-id 6. -/
theorem load_next_id_inferred_witness :
    loadItems [.obj (Bug.to_dict ⟨5, "x", "Low", "Open", "T", "T"⟩)]
      = some [⟨5, "x", "Low", "Open", "T", "T"⟩] ∧
    ([⟨5, "x", "Low", "Open", "T", "T"⟩] : List Bug) ≠ [] ∧
    (load (.validJson (.arr [.obj (Bug.to_dict ⟨5, "x", "Low", "Open", "T", "T"⟩)]))
        = .ok ⟨[⟨5, "x", "Low", "Open", "T", "T"⟩], 6⟩ false ∧
     (∀ b ∈ ([⟨5, "x", "Low", "Open", "T", "T"⟩] : List Bug), b.id < 6) ∧
     ∀ ops a, a ∈ assignedIds ⟨[⟨5, "x", "Low", "Open", "T", "T"⟩], 6⟩ ops →
       ∀ b ∈ ([⟨5, "x", "Low", "Open", "T", "T"⟩] : List Bug), b.id < a) :=
  ⟨rfl, by decide,
   load_next_id_inferred [.obj (Bug.to_dict ⟨5, "x", "Low", "Open", "T", "T"⟩)]
     [⟨5, "x", "Low", "Open", "T", "T"⟩] rfl (by decide)⟩

end BugStore
